import Mathlib

/-
Verification development for the poker_hands repository.

The repository contains two generations of the same program:
  * a legacy monolith `classes.py` (Card, Deck, PokerHands) together with
    a parallel single-file module `classes/cards.py` (Suit, Rank, Card, Deck),
  * a newer modular variant `classes/rank.py`, `classes/suit.py`,
    `classes/card.py`, `classes/deck.py` (dataclass based) plus the hand
    evaluation engine `engine.py`.
Every definition below is a shallow embedding of one of those source
functions; the namespaces say which file a definition comes from.
-/

/-- The thirteen ranks, in the key order of the RANKS table of
`classes/rank.py` (and `classes/cards.py`). -/
inductive Rank : Type
  | ace | two | three | four | five | six | seven | eight | nine | ten
  | jack | queen | king
deriving DecidableEq, Repr, Fintype

/-- `order` column of the RANKS table of `classes/rank.py`:
ace is 1, numbers are themselves, jack 11, queen 12, king 13. -/
def Rank.order : Rank → Nat
  | .ace => 1
  | .two => 2
  | .three => 3
  | .four => 4
  | .five => 5
  | .six => 6
  | .seven => 7
  | .eight => 8
  | .nine => 9
  | .ten => 10
  | .jack => 11
  | .queen => 12
  | .king => 13

/-- `value` column of the RANKS table of `classes/rank.py`:
ace is 11, numbers are themselves, the three face cards are 10. -/
def Rank.value : Rank → Nat
  | .ace => 11
  | .jack => 10
  | .queen => 10
  | .king => 10
  | r => r.order

/-- `proper name` column of the RANKS table of `classes/rank.py`. -/
def Rank.rname : Rank → String
  | .ace => "ace"
  | .two => "2"
  | .three => "3"
  | .four => "4"
  | .five => "5"
  | .six => "6"
  | .seven => "7"
  | .eight => "8"
  | .nine => "9"
  | .ten => "10"
  | .jack => "jack"
  | .queen => "queen"
  | .king => "king"

/-- The four suits, in the order of the NAMES list of `classes/suit.py`
(alphabetical: clubs, diamonds, hearts, spades). -/
inductive Suit : Type
  | clubs | diamonds | hearts | spades
deriving DecidableEq, Repr, Fintype

/-- Index of a suit in the NAMES list of `classes/suit.py`
(used by `Suit.__lt__` for the alphabetical comparison). -/
def Suit.alphaIdx : Suit → Nat
  | .clubs => 0
  | .diamonds => 1
  | .hearts => 2
  | .spades => 3

/-- A playing card: a rank and a suit.  All three Card classes of the
repository carry exactly this data (the derived attributes value, order,
name, symbol are functions of it). -/
structure Card where
  rank : Rank
  suit : Suit
deriving DecidableEq, Repr, Fintype

/-!  ### Python's stable sort

`sorted(xs, key=k)` in Python is a stable ascending sort.  A stable sort
for a total preorder is uniquely determined, so we embed it as a stable
insertion sort and prove the permutation and sortedness facts we need.
-/

/-- Stable insertion of `x` into `l`: `x` goes in front of the first
element `y` with `le x y`; equal elements already in `l` stay in front. -/
def insertLe (le : α → α → Bool) (x : α) : List α → List α
  | [] => [x]
  | y :: ys => if le x y then x :: y :: ys else y :: insertLe le x ys

/-- Stable insertion sort; embeds Python's `sorted` with `le` the
(total, transitive) boolean key comparison. -/
def pysorted (le : α → α → Bool) : List α → List α
  | [] => []
  | x :: xs => insertLe le x (pysorted le xs)

theorem insertLe_perm (le : α → α → Bool) (x : α) (l : List α) :
    (insertLe le x l).Perm (x :: l) := by
  induction l with
  | nil => simp [insertLe]
  | cons y ys ih =>
    simp only [insertLe]
    by_cases h : le x y
    · simp [h]
    · simp only [h, if_neg, Bool.false_eq_true, not_false_eq_true]
      exact ((ih.cons y).trans (List.Perm.swap x y ys))

theorem pysorted_perm (le : α → α → Bool) (l : List α) :
    (pysorted le l).Perm l := by
  induction l with
  | nil => simp [pysorted]
  | cons x xs ih =>
    exact (insertLe_perm le x (pysorted le xs)).trans (ih.cons x)

theorem mem_insertLe {le : α → α → Bool} {x a : α} {l : List α} :
    a ∈ insertLe le x l ↔ a = x ∨ a ∈ l := by
  constructor
  · intro h
    have := (insertLe_perm le x l).mem_iff.mp h
    simpa using this
  · intro h
    exact (insertLe_perm le x l).mem_iff.mpr (by simpa using h)

theorem insertLe_pairwise {le : α → α → Bool}
    (htot : ∀ a b, le a b = true ∨ le b a = true)
    (htrans : ∀ a b c, le a b = true → le b c = true → le a c = true)
    {x : α} {l : List α} (hl : l.Pairwise (fun a b => le a b = true)) :
    (insertLe le x l).Pairwise (fun a b => le a b = true) := by
  induction hl with
  | nil => simp [insertLe]
  | @cons y ys hy hys ih =>
    simp only [insertLe]
    by_cases h : le x y = true
    · rw [if_pos h]
      refine List.Pairwise.cons ?_ (List.Pairwise.cons hy hys)
      intro b hb
      rcases List.mem_cons.mp hb with rfl | hb
      · exact h
      · exact htrans x y b h (hy b hb)
    · have hyx : le y x = true := by
        rcases htot x y with h1 | h1
        · exact absurd h1 h
        · exact h1
      rw [if_neg h]
      refine List.Pairwise.cons ?_ ih
      intro b hb
      rcases mem_insertLe.mp hb with rfl | hb
      · exact hyx
      · exact hy b hb

theorem pysorted_pairwise {le : α → α → Bool}
    (htot : ∀ a b, le a b = true ∨ le b a = true)
    (htrans : ∀ a b c, le a b = true → le b c = true → le a c = true)
    (l : List α) :
    (pysorted le l).Pairwise (fun a b => le a b = true) := by
  induction l with
  | nil => simp [pysorted]
  | cons x xs ih => exact insertLe_pairwise htot htrans ih

theorem pysorted_length (le : α → α → Bool) (l : List α) :
    (pysorted le l).length = l.length :=
  (pysorted_perm le l).length_eq

theorem pysorted_eq_nil_iff {le : α → α → Bool} {l : List α} :
    pysorted le l = [] ↔ l = [] := by
  constructor
  · intro h
    have := pysorted_length le l
    rw [h] at this
    exact List.length_eq_zero.mp this.symm
  · intro h
    subst h
    rfl

/-!  ### The dataclass variant: `classes/rank.py`, `classes/suit.py`, `classes/card.py`

`Rank.__eq__` and `Rank.__lt__` both compare the `value` attribute.
`Card.__eq__` compares only `self.rank == other.rank`; `Card.__lt__` only
`self.rank < other.rank`.  `functools.total_ordering` derives
`a > b` as `(not a < b) and (a != b)`.
-/

namespace CardDC

/-- `Rank.__eq__` of `classes/rank.py`: equality of the `value` attribute. -/
def rankEq (a b : Rank) : Bool := a.value == b.value

/-- `Rank.__lt__` of `classes/rank.py`: strict comparison of `value`. -/
def rankLt (a b : Rank) : Bool := a.value < b.value

/-- `Suit.__eq__` of `classes/suit.py`: equality of the `symbol`
attribute, which is determined by the suit. -/
def suitEq (a b : Suit) : Bool := a == b

/-- `Suit.__lt__` of `classes/suit.py`: alphabetical order via the index
in the NAMES list. -/
def suitLt (a b : Suit) : Bool := a.alphaIdx < b.alphaIdx

/-- `Card.__eq__` of `classes/card.py`: compares the ranks only (and rank
equality itself compares only the `value` attribute). -/
def cardEq (a b : Card) : Bool := rankEq a.rank b.rank

/-- `Card.__lt__` of `classes/card.py`: compares the ranks only; there is
no suit tie-break. -/
def cardLt (a b : Card) : Bool := rankLt a.rank b.rank

/-- `Card.__gt__` as derived by `functools.total_ordering` from the
explicit `__lt__` and `__eq__` of `classes/card.py`. -/
def cardGt (a b : Card) : Bool := !cardLt a b && !cardEq a b

end CardDC

/-!  ### The monolith variant: `classes/cards.py`

`Rank.__eq__` compares the `name` attribute (so it distinguishes the
three face cards), while `Rank.__lt__` still compares `value`.
`Card.__eq__` requires rank and suit to match; `Card.__lt__` compares by
rank and breaks rank-equality ties by the suits' alphabetical order.
-/

namespace CardsPy

/-- `Rank.__eq__` of `classes/cards.py`: equality of the `name`
attribute, which is injective, hence structural rank equality. -/
def rankEq (a b : Rank) : Bool := a.rname == b.rname

/-- `Rank.__lt__` of `classes/cards.py`: strict comparison of `value`. -/
def rankLt (a b : Rank) : Bool := a.value < b.value

/-- `Card.__eq__` of `classes/cards.py`: rank and suit must both match. -/
def cardEq (a b : Card) : Bool := rankEq a.rank b.rank && a.suit == b.suit

/-- `Card.__lt__` of `classes/cards.py`: rank first, and when the ranks
are equal (by name) the suits' alphabetical order breaks the tie. -/
def cardLt (a b : Card) : Bool :=
  if rankLt a.rank b.rank then true
  else if rankEq a.rank b.rank then a.suit.alphaIdx < b.suit.alphaIdx
  else false

/-- `Card.__gt__` as derived by `functools.total_ordering` from the
`__lt__` and `__eq__` of `classes/cards.py`. -/
def cardGt (a b : Card) : Bool := !cardLt a b && !cardEq a b

end CardsPy

/-!  ### The legacy `classes.py` Card

`Card.__eq__` there compares the raw `rank` and `suit` constructor
arguments, which are in bijection with our `Rank` and `Suit` values, so
it is structural equality on (rank, suit).  `classes.py` cards carry
`cardinality` (our `Rank.order`) and `value` (our `Rank.value`), read
from the missing `constants.py`; both tables are fixed by the docstring
of `Card.__init__` and coincide with the RANKS table of
`classes/rank.py`.
-/

namespace ClassesPy

/-- `Card.__eq__` of `classes.py`: same rank and same suit. -/
def cardEq (a b : Card) : Bool := a.rank == b.rank && a.suit == b.suit

end ClassesPy

/-!  ### Token parsing: `Rank.__post_init__` and `Suit.__post_init__`

Python's `str.upper` / `str.lower` are embedded as ASCII character maps
(all recognized rank and suit spellings are ASCII apart from the suit
symbols, which have no case).
-/

/-- One character of Python's `str.upper` restricted to ASCII. -/
def upChar (c : Char) : Char :=
  match c with
  | 'a' => 'A' | 'b' => 'B' | 'c' => 'C' | 'd' => 'D' | 'e' => 'E'
  | 'f' => 'F' | 'g' => 'G' | 'h' => 'H' | 'i' => 'I' | 'j' => 'J'
  | 'k' => 'K' | 'l' => 'L' | 'm' => 'M' | 'n' => 'N' | 'o' => 'O'
  | 'p' => 'P' | 'q' => 'Q' | 'r' => 'R' | 's' => 'S' | 't' => 'T'
  | 'u' => 'U' | 'v' => 'V' | 'w' => 'W' | 'x' => 'X' | 'y' => 'Y'
  | 'z' => 'Z' | other => other

/-- One character of Python's `str.lower` restricted to ASCII. -/
def downChar (c : Char) : Char :=
  match c with
  | 'A' => 'a' | 'B' => 'b' | 'C' => 'c' | 'D' => 'd' | 'E' => 'e'
  | 'F' => 'f' | 'G' => 'g' | 'H' => 'h' | 'I' => 'i' | 'J' => 'j'
  | 'K' => 'k' | 'L' => 'l' | 'M' => 'm' | 'N' => 'n' | 'O' => 'o'
  | 'P' => 'p' | 'Q' => 'q' | 'R' => 'r' | 'S' => 's' | 'T' => 't'
  | 'U' => 'u' | 'V' => 'v' | 'W' => 'w' | 'X' => 'x' | 'Y' => 'y'
  | 'Z' => 'z' | other => other

/-- Python's `str.upper` (ASCII fragment). -/
def pyUpper (s : String) : String := ⟨s.data.map upChar⟩

/-- Python's `str.lower` (ASCII fragment). -/
def pyLower (s : String) : String := ⟨s.data.map downChar⟩

/-- The keys of the RANKS dictionary of `classes/rank.py`, each paired
with the rank it denotes. -/
def RANKS_TBL : List (String × Rank) :=
  [("A", .ace), ("2", .two), ("3", .three), ("4", .four), ("5", .five),
   ("6", .six), ("7", .seven), ("8", .eight), ("9", .nine), ("10", .ten),
   ("J", .jack), ("Q", .queen), ("K", .king)]

/-- The BROADWAY_RANKS dictionary of `classes/rank.py`: long names
mapped to their shorthand. -/
def BROADWAY_TBL : List (String × String) :=
  [("ACE", "A"), ("JACK", "J"), ("QUEEN", "Q"), ("KING", "K")]

/-- `Rank.__post_init__` of `classes/rank.py` after upper-casing: the
BROADWAY_RANKS rewrite followed by the RANKS lookup; an unknown token
raises `ValueError("Invalid rank provided: ...")`. -/
def parseRankU (u : String) : Except String Rank :=
  let u2 := match BROADWAY_TBL.find? (fun p => p.1 == u) with
    | some p => p.2
    | none => u
  match RANKS_TBL.find? (fun p => p.1 == u2) with
  | some p => .ok p.2
  | none => .error ("Invalid rank provided: " ++ u2)

/-- `Rank.__post_init__` of `classes/rank.py`: upper-case the token,
then validate it. -/
def parseRank (s : String) : Except String Rank := parseRankU (pyUpper s)

/-- The NAMES list of `classes/suit.py`, each name paired with its suit. -/
def SUIT_NAMES_TBL : List (String × Suit) :=
  [("clubs", .clubs), ("diamonds", .diamonds), ("hearts", .hearts),
   ("spades", .spades)]

/-- The SYMBOLS list of `classes/suit.py`, each glyph paired with its
suit. -/
def SUIT_SYMBOLS_TBL : List (String × Suit) :=
  [("♣", .clubs), ("♦", .diamonds), ("♥", .hearts), ("♠", .spades)]

/-- `Suit.__post_init__` of `classes/suit.py` after lower-casing: a
token is accepted when it is a suit name or a suit symbol; anything else
raises `ValueError`. -/
def parseSuitL (u : String) : Except String Suit :=
  match SUIT_NAMES_TBL.find? (fun p => p.1 == u) with
  | some p => .ok p.2
  | none =>
    match SUIT_SYMBOLS_TBL.find? (fun p => p.1 == u) with
    | some p => .ok p.2
    | none => .error "Suit must be one of the four names or symbols"

/-- `Suit.__post_init__` of `classes/suit.py`: lower-case the token,
then validate it. -/
def parseSuit (s : String) : Except String Suit := parseSuitL (pyLower s)

/-- Every token the rank validator recognizes, upper-cased: the RANKS
keys and the BROADWAY_RANKS keys. -/
def recognizedRankTokens : List String :=
  RANKS_TBL.map (fun p => p.1) ++ BROADWAY_TBL.map (fun p => p.1)

/-- Every token the suit validator recognizes, lower-cased: the four
names and the four symbols. -/
def recognizedSuitTokens : List String :=
  SUIT_NAMES_TBL.map (fun p => p.1) ++ SUIT_SYMBOLS_TBL.map (fun p => p.1)

/-!  ### Decks: `classes/deck.py` (same code again in `classes/cards.py`)
and the legacy `classes.py` Deck
-/

/-- RANKS key order of `classes/rank.py`, used by the deck builder. -/
def allRanks : List Rank :=
  [.ace, .two, .three, .four, .five, .six, .seven, .eight, .nine, .ten,
   .jack, .queen, .king]

/-- NAMES order of `classes/suit.py`. -/
def allSuits : List Suit := [.clubs, .diamonds, .hearts, .spades]

namespace DeckPy

/-- `Deck.__init__` of `classes/deck.py` (and of `classes/cards.py`):
one card per element of `product(Rank.RANKS, Suit.NAMES)`, rank-major. -/
def fresh : List Card :=
  allRanks.flatMap (fun r => allSuits.map (fun s => { rank := r, suit := s }))

/-- `Deck.draw` of `classes/deck.py` (identical in `classes/cards.py`):
if more cards are requested than remain, raise
`ValueError("Not enough cards left in deck to draw ...")` and leave the
deck untouched; otherwise hand out the first `n` cards and delete them.
The second component is the state of `self.cards` afterwards. -/
def draw (n : Nat) (cards : List Card) :
    Except String (List Card) × List Card :=
  if n > cards.length then
    (.error "Not enough cards left in deck to draw", cards)
  else
    (.ok (cards.take n), cards.drop n)

end DeckPy

namespace ClassesPy

/-- `Deck.deal` of `classes.py`: `[self.cards.pop(0) for _ in range(n)]`.
There is no length check: when `n` exceeds the deck size every card is
popped and then `IndexError("pop from empty list")` escapes, leaving the
deck empty.  The second component is the state of `self.cards`
afterwards. -/
def deal (n : Nat) (cards : List Card) :
    Except String (List Card) × List Card :=
  if n ≤ cards.length then
    (.ok (cards.take n), cards.drop n)
  else
    (.error "pop from empty list", [])

end ClassesPy

/-!  ### The legacy evaluator: class PokerHands of `classes.py`

The card attributes `cardinality` and `value` come from the (absent)
`constants.py`; the docstring of `Card.__init__` fixes them to our
`Rank.order` and `Rank.value`.
-/

namespace PH

/-- `self.sorted_cards`: the hand sorted (stably) by `cardinality`. -/
def sorted_cards (cards : List Card) : List Card :=
  pysorted (fun a b => a.rank.order ≤ b.rank.order) cards

/-- `PokerHands._all_are_equal_rank`: every card has the rank of the
first one (vacuously true of an empty window). -/
def all_are_equal_rank (cards : List Card) : Bool :=
  match cards with
  | [] => true
  | c :: cs => cs.all (fun d => d.rank == c.rank)

/-- `PokerHands._all_are_equal_suit`. -/
def all_are_equal_suit (cards : List Card) : Bool :=
  match cards with
  | [] => true
  | c :: cs => cs.all (fun d => d.suit == c.suit)

/-- Boolean version of the `cardinality + 1` adjacency loop of
`PokerHands._all_are_in_cardinal_order`, on a list of cardinalities. -/
def chainSucc : List Nat → Bool
  | [] => true
  | [_] => true
  | a :: b :: t => (a + 1 == b) && chainSucc (b :: t)

/-- `PokerHands._all_are_in_cardinal_order` applied to a card list. -/
def all_are_in_cardinal_order (cards : List Card) : Bool :=
  chainSucc (cards.map (fun c => c.rank.order))

/-- `PokerHands._all_are_distinct`: the buggy double loop.  The inner
index `j` runs over the whole list, so `cards[i] == cards[j]` fires at
`j = i` and the function returns False for every list of length ≥ 2. -/
def all_are_distinct (cards : List Card) : Bool :=
  (List.range (cards.length - 1)).all (fun i =>
    (List.range cards.length).all (fun j =>
      !(ClassesPy.cardEq (cards.getD i { rank := .ace, suit := .clubs })
          (cards.getD j { rank := .ace, suit := .clubs }))))

/-- `PokerHands._find_n_of_a_kind`: slide a window of size `n` over the
sorted cards and keep the windows whose ranks all agree. -/
def find_n_of_a_kind (n : Nat) (cards : List Card) : List (List Card) :=
  let sc := sorted_cards cards
  ((List.range (sc.length + 1 - n)).map (fun i => (sc.drop i).take n)).filter
    all_are_equal_rank

/-- `PokerHands._find_pairs`. -/
def pairs (cards : List Card) : List (List Card) := find_n_of_a_kind 2 cards

/-- `PokerHands._find_three_of_a_kinds`. -/
def three_of_a_kinds (cards : List Card) : List (List Card) :=
  find_n_of_a_kind 3 cards

/-- `PokerHands._find_four_of_a_kinds`. -/
def four_of_a_kinds (cards : List Card) : List (List Card) :=
  find_n_of_a_kind 4 cards

/-- `PokerHands._find_full_houses`: every pair combined with every
three-of-a-kind, kept when `_all_are_distinct` accepts the six cards —
which it never does, so the list is always empty. -/
def full_houses (cards : List Card) : List (List Card) :=
  if three_of_a_kinds cards ≠ [] then
    ((pairs cards).flatMap (fun p =>
      (three_of_a_kinds cards).map (fun t => p ++ t))).filter
      all_are_distinct
  else []

/-- `PokerHands._find_flush`: the whole (sorted) hand, when all suits
agree. -/
def flushes (cards : List Card) : List (List Card) :=
  if all_are_equal_suit cards then [sorted_cards cards] else []

/-- `PokerHands._is_a_high_straight`: the sorted hand reads exactly
ace, 10, jack, queen, king. -/
def is_a_high_straight (cards : List Card) : Bool :=
  (sorted_cards cards).map (fun c => c.rank) ==
    [.ace, .ten, .jack, .queen, .king]

/-- `PokerHands._find_straight`: the sorted hand, when it is the
ace-high special case or is in consecutive cardinal order.  Note that in
the ace-high case the sorted hand starts with the ace (cardinality 1). -/
def straights (cards : List Card) : List (List Card) :=
  if is_a_high_straight cards ||
      all_are_in_cardinal_order (sorted_cards cards) then
    [sorted_cards cards]
  else []

/-- `PokerHands._find_straight_flushes`: a straight and a flush were
found and the hand is not the ace-high special case. -/
def straight_flushes (cards : List Card) : List (List Card) :=
  if straights cards ≠ [] ∧ flushes cards ≠ [] ∧
      ¬ is_a_high_straight cards then
    [sorted_cards cards]
  else []

/-- `PokerHands._find_royal_flush`: the ace-high special case together
with a flush. -/
def royal_flushes (cards : List Card) : List (List Card) :=
  if is_a_high_straight cards ∧ flushes cards ≠ [] then
    [sorted_cards cards]
  else []

/-- Python's tuple comparison for the `(value, cardinality)` key used by
`PokerHands._find_high_card`. -/
def keyLtB (p q : Nat × Nat) : Bool :=
  p.1 < q.1 || (p.1 == q.1 && p.2 < q.2)

/-- The `(value, cardinality)` key of `PokerHands._find_high_card`. -/
def hcKey (c : Card) : Nat × Nat := (c.rank.value, c.rank.order)

/-- Python's `max`: keep the current maximum and replace it whenever a
later item compares strictly greater. -/
def pymaxBy (gt : Card → Card → Bool) : Card → List Card → Card
  | m, [] => m
  | m, c :: cs => pymaxBy gt (if gt c m then c else m) cs

/-- `PokerHands._find_high_card`:
`max(self.cards, key=lambda card: (card.value, card.cardinality))`. -/
def high_card (cards : List Card) : Option Card :=
  match cards with
  | [] => none
  | c :: cs => some (pymaxBy (fun a m => keyLtB (hcKey m) (hcKey a)) c cs)

/-- The score chain at the end of `PokerHands._find_hands`: 9 for a
royal flush down to 2 for a pair and 1 otherwise.  There is no case for
two pair. -/
def score (cards : List Card) : Nat :=
  if royal_flushes cards ≠ [] then 9
  else if straight_flushes cards ≠ [] then 8
  else if four_of_a_kinds cards ≠ [] then 7
  else if full_houses cards ≠ [] then 6
  else if flushes cards ≠ [] then 5
  else if straights cards ≠ [] then 4
  else if three_of_a_kinds cards ≠ [] then 3
  else if pairs cards ≠ [] then 2
  else 1

end PH

/-!  ### The engine: `engine.py`

`engine.py` works on the package's Card values.  Grouping by rank
(`collections.Counter`) and the card-set intersection of
`find_two_pairs` use Rank/Card hashing and equality, which only the
`classes/cards.py` variant provides (name-keyed ranks, rank-and-suit
card identity); `find_hands`'s `max(cards)` uses the Card comparison
operators directly.
-/

namespace Engine

/-- `is_high_straight` of `engine.py`: the sorted rank orders are
exactly `[1, 10, 11, 12, 13]`. -/
def is_high_straight (cards : List Card) : Bool :=
  pysorted (fun a b => a ≤ b) (cards.map (fun c => c.rank.order)) ==
    [1, 10, 11, 12, 13]

/-- `itertools.combinations`: all `n`-element subsequences, in
lexicographic position order. -/
def combinations (n : Nat) (l : List α) : List (List α) :=
  match n, l with
  | 0, _ => [[]]
  | _ + 1, [] => []
  | n + 1, x :: xs =>
    (combinations n xs).map (fun c => x :: c) ++ combinations (n + 1) xs

/-- `collections.Counter` over the ranks of a hand: each distinct rank in
first-occurrence order with its multiplicity. -/
def rankCounts (cards : List Card) : List (Rank × Nat) :=
  (cards.map (fun c => c.rank)).foldl (fun acc r =>
    if acc.any (fun p => p.1 == r) then
      acc.map (fun p => if p.1 == r then (p.1, p.2 + 1) else p)
    else acc ++ [(r, 1)]) []

/-- `find_matching_ranks` of `engine.py` (without the four-of-a-kind
tuple special case, which only reshapes the result): for every rank with
at least `n` occurrences, every `n`-combination of its cards. -/
def find_matching_ranks (cards : List Card) (n : Nat) : List (List Card) :=
  (rankCounts cards).flatMap (fun p =>
    if n ≤ p.2 then
      combinations n (cards.filter (fun c => c.rank == p.1))
    else [])

/-- `find_two_pairs` of `engine.py`: all 2-combinations of the pair list
whose card sets are disjoint, each flattened into one four-card tuple. -/
def find_two_pairs (pairList : List (List Card)) : List (List Card) :=
  (combinations 2 pairList).filterMap (fun pp =>
    match pp with
    | [p1, p2] =>
      if p1.all (fun c => !(p2.contains c)) then some (p1 ++ p2) else none
    | _ => none)

/-- The `(value, order)` sort key comparison used for the ace-high
straight and the straight/royal flush tuples of `engine.py`. -/
def leVO (a b : Card) : Bool :=
  a.rank.value < b.rank.value ||
    (a.rank.value == b.rank.value && a.rank.order ≤ b.rank.order)

/-- `find_straight` of `engine.py`: the ace-high special case is sorted
with the ace last (key `(value, order)`); otherwise the rank orders must
be strictly consecutive and the hand is returned sorted by order. -/
def find_straight (cards : List Card) : List Card :=
  if is_high_straight cards then pysorted leVO cards
  else if PH.chainSucc
      (pysorted (fun a b => a ≤ b) (cards.map (fun c => c.rank.order))) then
    pysorted (fun a b => a.rank.order ≤ b.rank.order) cards
  else []

/-- `find_flush` of `engine.py`: the hand itself when only one distinct
suit occurs. -/
def find_flush (cards : List Card) : List Card :=
  match cards with
  | [] => []
  | c :: cs => if cs.all (fun d => d.suit == c.suit) then cards else []

/-- `find_full_house` of `engine.py`: exactly two distinct ranks whose
sorted multiplicities are `[2, 3]`; the hand is returned sorted by rank
(`Rank.__lt__`, i.e. by `value`). -/
def find_full_house (cards : List Card) : List Card :=
  if (rankCounts cards).length = 2 ∧
      pysorted (fun a b => a ≤ b) ((rankCounts cards).map (fun p => p.2)) =
        [2, 3] then
    pysorted (fun a b => a.rank.value ≤ b.rank.value) cards
  else []

/-- The `(value, order, suit)` key used for the straight/royal flush
tuples in `find_hands`. -/
def leVOS (a b : Card) : Bool :=
  a.rank.value < b.rank.value ||
    (a.rank.value == b.rank.value &&
      (a.rank.order < b.rank.order ||
        (a.rank.order == b.rank.order && a.suit.alphaIdx ≤ b.suit.alphaIdx)))

/-- The `straight_flush` entry of `find_hands` in `engine.py`: the whole
hand sorted by `(value, order, suit)` whenever a straight AND a flush
were detected — the ace-high case is NOT excluded. -/
def straight_flush (cards : List Card) : List Card :=
  if find_straight cards ≠ [] ∧ find_flush cards ≠ [] then
    pysorted leVOS cards
  else []

/-- The `royal_flush` entry of `find_hands` in `engine.py`: a straight
flush that is the ace-high special case. -/
def royal_flush (cards : List Card) : List Card :=
  if straight_flush cards ≠ [] ∧ is_high_straight cards then
    pysorted leVOS cards
  else []

/-- The `high card` entry of `find_hands` in `engine.py`: Python's
`max(cards)`, driven by the Card comparison operators; `gt` is the
derived `__gt__` of whichever Card class is in scope. -/
def high_card (gt : Card → Card → Bool) (cards : List Card) : Option Card :=
  match cards with
  | [] => none
  | c :: cs => some (PH.pymaxBy gt c cs)

end Engine

deriving instance DecidableEq for Except

/-!  ### Concrete hands used by the claims -/

/-- The royal-flush hand 10♠ J♠ Q♠ K♠ A♠. -/
def royalHand : List Card :=
  [{ rank := .ten, suit := .spades }, { rank := .jack, suit := .spades },
   { rank := .queen, suit := .spades }, { rank := .king, suit := .spades },
   { rank := .ace, suit := .spades }]

/-- The two-pair hand K♣ K♦ Q♥ Q♠ 2♣. -/
def tpHand : List Card :=
  [{ rank := .king, suit := .clubs }, { rank := .king, suit := .diamonds },
   { rank := .queen, suit := .hearts }, { rank := .queen, suit := .spades },
   { rank := .two, suit := .clubs }]

/-- The full-house hand 2♣ 2♦ 2♥ 5♠ 5♣. -/
def fhHand : List Card :=
  [{ rank := .two, suit := .clubs }, { rank := .two, suit := .diamonds },
   { rank := .two, suit := .hearts }, { rank := .five, suit := .spades },
   { rank := .five, suit := .clubs }]

/-- A hand holding jack, queen and king (plus two low cards), with the
jack first. -/
def hcHand : List Card :=
  [{ rank := .jack, suit := .clubs }, { rank := .queen, suit := .diamonds },
   { rank := .king, suit := .hearts }, { rank := .two, suit := .spades },
   { rank := .three, suit := .clubs }]

/-- An ace-high straight that is not a flush. -/
def aceHighHand : List Card :=
  [{ rank := .ten, suit := .clubs }, { rank := .jack, suit := .diamonds },
   { rank := .queen, suit := .hearts }, { rank := .king, suit := .spades },
   { rank := .ace, suit := .clubs }]

/-!  ### Facts about the rank tables -/

theorem rank_order_inj : ∀ r s : Rank, r.order = s.order → r = s := by decide

theorem rank_of_order_one : ∀ r : Rank, r.order = 1 → r = .ace := by decide

theorem rank_value_le_ten : ∀ r : Rank, r = .ace ∨ r.value ≤ 10 := by decide

/-!  ### The lexicographic `(value, order)` key order -/

/-- Non-strict version of the tuple comparison `PH.keyLtB`. -/
def keyLe (p q : Nat × Nat) : Prop :=
  p.1 < q.1 ∨ (p.1 = q.1 ∧ p.2 ≤ q.2)

theorem keyLe_refl (p : Nat × Nat) : keyLe p p := by
  right; exact ⟨rfl, le_refl _⟩

theorem keyLe_trans {p q r : Nat × Nat} (h1 : keyLe p q) (h2 : keyLe q r) :
    keyLe p r := by
  rcases h1 with h1 | ⟨h1, h1b⟩ <;> rcases h2 with h2 | ⟨h2, h2b⟩ <;>
    simp only [keyLe] <;> omega

theorem keyLtB_true_iff {p q : Nat × Nat} :
    PH.keyLtB p q = true ↔ (p.1 < q.1 ∨ (p.1 = q.1 ∧ p.2 < q.2)) := by
  simp only [PH.keyLtB, Bool.or_eq_true, Bool.and_eq_true, decide_eq_true_eq,
    beq_iff_eq]

theorem keyLe_of_not_ltB {p q : Nat × Nat} (h : PH.keyLtB p q ≠ true) :
    keyLe q p := by
  have h2 : ¬(p.1 < q.1 ∨ (p.1 = q.1 ∧ p.2 < q.2)) := fun hc =>
    h (keyLtB_true_iff.mpr hc)
  simp only [keyLe]
  omega

theorem keyLe_of_ltB {p q : Nat × Nat} (h : PH.keyLtB p q = true) :
    keyLe p q := by
  rw [keyLtB_true_iff] at h
  simp only [keyLe]
  omega

/-- The `max(..., key=...)` loop of `PokerHands._find_high_card` returns
an element of the scanned list whose `(value, cardinality)` key is an
upper bound of every scanned key. -/
theorem pymaxBy_key_spec (cs : List Card) : ∀ m : Card,
    (PH.pymaxBy (fun a m => PH.keyLtB (PH.hcKey m) (PH.hcKey a)) m cs = m ∨
      PH.pymaxBy (fun a m => PH.keyLtB (PH.hcKey m) (PH.hcKey a)) m cs ∈ cs) ∧
    ∀ c ∈ m :: cs,
      keyLe (PH.hcKey c)
        (PH.hcKey (PH.pymaxBy (fun a m => PH.keyLtB (PH.hcKey m) (PH.hcKey a)) m cs)) := by
  induction cs with
  | nil =>
    intro m
    refine ⟨Or.inl rfl, ?_⟩
    intro c hc
    rcases List.mem_cons.mp hc with rfl | hc
    · exact keyLe_refl _
    · cases hc
  | cons x xs ih =>
    intro m
    simp only [PH.pymaxBy]
    by_cases h : PH.keyLtB (PH.hcKey m) (PH.hcKey x) = true
    · rw [if_pos h]
      rcases ih x with ⟨hmem, hmax⟩
      refine ⟨?_, ?_⟩
      · rcases hmem with h1 | h1
        · exact Or.inr (by rw [h1]; exact List.mem_cons_self x xs)
        · exact Or.inr (List.mem_cons_of_mem x h1)
      · intro c hc
        rcases List.mem_cons.mp hc with rfl | hc
        · exact keyLe_trans (keyLe_of_ltB h) (hmax x (List.mem_cons_self x xs))
        · exact hmax c hc
    · rw [if_neg h]
      rcases ih m with ⟨hmem, hmax⟩
      refine ⟨?_, ?_⟩
      · rcases hmem with h1 | h1
        · exact Or.inl h1
        · exact Or.inr (List.mem_cons_of_mem x h1)
      · intro c hc
        rcases List.mem_cons.mp hc with rfl | hc
        · exact hmax _ (List.mem_cons_self _ _)
        · rcases List.mem_cons.mp hc with rfl | hc
          · exact keyLe_trans (keyLe_of_not_ltB h)
              (hmax _ (List.mem_cons_self _ _))
          · exact hmax c (List.mem_cons_of_mem m hc)

/-!  ### Sorting by cardinality commutes with reading off the orders -/

theorem map_order_sorted_cards (cards : List Card) :
    (PH.sorted_cards cards).map (fun c => c.rank.order) =
      pysorted (fun a b => a ≤ b) (cards.map (fun c => c.rank.order)) := by
  have htotC : ∀ a b : Card,
      (decide (a.rank.order ≤ b.rank.order)) = true ∨
        (decide (b.rank.order ≤ a.rank.order)) = true := by
    intro a b
    simp only [decide_eq_true_eq]
    omega
  have htransC : ∀ a b c : Card,
      (decide (a.rank.order ≤ b.rank.order)) = true →
        (decide (b.rank.order ≤ c.rank.order)) = true →
        (decide (a.rank.order ≤ c.rank.order)) = true := by
    intro a b c
    simp only [decide_eq_true_eq]
    omega
  have htotN : ∀ a b : Nat,
      (decide (a ≤ b)) = true ∨ (decide (b ≤ a)) = true := by
    intro a b
    simp only [decide_eq_true_eq]
    omega
  have htransN : ∀ a b c : Nat,
      (decide (a ≤ b)) = true → (decide (b ≤ c)) = true →
        (decide (a ≤ c)) = true := by
    intro a b c
    simp only [decide_eq_true_eq]
    omega
  have hs1 : ((PH.sorted_cards cards).map (fun c => c.rank.order)).Sorted
      (α := ℕ) (· ≤ ·) := by
    have := pysorted_pairwise htotC htransC cards
    rw [List.Sorted, List.pairwise_map]
    exact this.imp (fun h => by simpa using h)
  have hs2 : (pysorted (fun a b => a ≤ b)
      (cards.map (fun c => c.rank.order))).Sorted (α := ℕ) (· ≤ ·) := by
    have := pysorted_pairwise htotN htransN (cards.map (fun c => c.rank.order))
    rw [List.Sorted]
    exact this.imp (fun h => by simpa using h)
  have hp : ((PH.sorted_cards cards).map (fun c => c.rank.order)).Perm
      (pysorted (fun a b => a ≤ b) (cards.map (fun c => c.rank.order))) := by
    have h1 := (pysorted_perm
      (fun a b : Card => decide (a.rank.order ≤ b.rank.order)) cards).map
      (fun c => c.rank.order)
    have h2 := pysorted_perm (fun a b : Nat => decide (a ≤ b))
      (cards.map (fun c => c.rank.order))
    exact h1.trans h2.symm
  exact List.eq_of_perm_of_sorted hp hs1 hs2

/-!  ### The two high-straight tests agree -/

/-- `PokerHands._is_a_high_straight` (exact rank pattern on the cards
sorted by cardinality) and `engine.is_high_straight` (sorted order
multiset equals `[1, 10, 11, 12, 13]`) accept exactly the same hands. -/
theorem high_straight_agree (cards : List Card) :
    PH.is_a_high_straight cards = true ↔
      Engine.is_high_straight cards = true := by
  constructor
  · intro h
    simp only [PH.is_a_high_straight, beq_iff_eq] at h
    simp only [Engine.is_high_straight, beq_iff_eq]
    rw [← map_order_sorted_cards]
    have hcomp : (PH.sorted_cards cards).map (fun c => c.rank.order) =
        ((PH.sorted_cards cards).map (fun c => c.rank)).map Rank.order := by
      rw [List.map_map]
      rfl
    rw [hcomp, h]
    rfl
  · intro h
    simp only [Engine.is_high_straight, beq_iff_eq] at h
    rw [← map_order_sorted_cards] at h
    simp only [PH.is_a_high_straight, beq_iff_eq]
    rcases hS : PH.sorted_cards cards with _ | ⟨a, _ | ⟨b, _ | ⟨c, _ |
      ⟨d, _ | ⟨e, _ | ⟨f, t⟩⟩⟩⟩⟩⟩ <;> rw [hS] at h <;> simp at h ⊢
    obtain ⟨h1, h2, h3, h4, h5⟩ := h
    refine ⟨rank_order_inj a.rank .ace h1, rank_order_inj b.rank .ten h2,
      rank_order_inj c.rank .jack h3, rank_order_inj d.rank .queen h4,
      rank_order_inj e.rank .king h5⟩

/-- The adjacency loop of `PokerHands` on the sorted hand is the
adjacency check of `engine.find_straight` on the sorted order list. -/
theorem cardinal_order_agree (cards : List Card) :
    PH.all_are_in_cardinal_order (PH.sorted_cards cards) =
      PH.chainSucc
        (pysorted (fun a b => a ≤ b) (cards.map (fun c => c.rank.order))) := by
  rw [PH.all_are_in_cardinal_order, map_order_sorted_cards]

/-!  ### In the ace-high case the engine lists the ace last -/

theorem leVO_total : ∀ a b : Card,
    Engine.leVO a b = true ∨ Engine.leVO b a = true := by
  intro a b
  simp only [Engine.leVO, Bool.or_eq_true, Bool.and_eq_true,
    decide_eq_true_eq, beq_iff_eq]
  omega

theorem leVO_trans : ∀ a b c : Card, Engine.leVO a b = true →
    Engine.leVO b c = true → Engine.leVO a c = true := by
  intro a b c
  simp only [Engine.leVO, Bool.or_eq_true, Bool.and_eq_true,
    decide_eq_true_eq, beq_iff_eq]
  omega

/-- When `engine.find_straight` recognizes the ace-high special case it
returns the hand sorted by `(value, order)`, and the ace — the unique
value-11 card — comes last, above the king. -/
theorem engine_high_straight_ace_last (cards : List Card)
    (h : Engine.is_high_straight cards = true) :
    ((Engine.find_straight cards).map (fun c => c.rank)).getLast? =
      some .ace := by
  have hfs : Engine.find_straight cards = pysorted Engine.leVO cards := by
    rw [Engine.find_straight, if_pos h]
  simp only [Engine.is_high_straight, beq_iff_eq] at h
  -- the multiset of orders is exactly 1, 10, 11, 12, 13
  have hperm : (cards.map (fun c => c.rank.order)).Perm [1, 10, 11, 12, 13] := by
    have := pysorted_perm (fun a b : Nat => decide (a ≤ b))
      (cards.map (fun c => c.rank.order))
    rw [h] at this
    exact this.symm
  -- so some card is an ace
  have hace : ∃ a ∈ cards, a.rank = .ace := by
    have h1 : (1 : Nat) ∈ cards.map (fun c => c.rank.order) := by
      rw [hperm.mem_iff]
      simp
    rcases List.mem_map.mp h1 with ⟨a, ha, hord⟩
    exact ⟨a, ha, rank_of_order_one a.rank hord⟩
  -- and every non-ace card has value at most 10
  have hval : ∀ c ∈ cards, c.rank ≠ .ace → c.rank.value ≤ 10 := by
    intro c _ hne
    rcases rank_value_le_ten c.rank with h1 | h1
    · exact absurd h1 hne
    · exact h1
  set R := pysorted Engine.leVO cards with hR
  have hRperm : R.Perm cards := pysorted_perm Engine.leVO cards
  have hRne : R ≠ [] := by
    intro hnil
    rcases hace with ⟨a, ha, _⟩
    exact absurd (hRperm.symm.subset ha) (by simp [hnil])
  have hsplit := List.dropLast_append_getLast hRne
  set e := R.getLast hRne with he
  have hpw := pysorted_pairwise leVO_total leVO_trans cards
  rw [← hR] at hpw
  have hemem : e ∈ cards := hRperm.subset (List.getLast_mem hRne)
  have heace : e.rank = .ace := by
    by_contra hne
    rcases hace with ⟨a, ha, haace⟩
    have haR : a ∈ R := hRperm.symm.subset ha
    have hane : a ≠ e := by
      intro hae
      rw [hae] at haace
      exact hne haace
    have haDL : a ∈ R.dropLast := by
      rcases (List.mem_append.mp (by rw [hsplit]; exact haR)) with h1 | h1
      · exact h1
      · simp at h1
        exact absurd h1 hane
    have hle : Engine.leVO a e = true := by
      have := hpw
      rw [← hsplit] at this
      rcases List.pairwise_append.mp this with ⟨_, _, hcross⟩
      exact hcross a haDL e (by simp)
    have hv : e.rank.value ≤ 10 := hval e hemem hne
    simp only [Engine.leVO, Bool.or_eq_true, Bool.and_eq_true,
      decide_eq_true_eq, beq_iff_eq] at hle
    have hav : a.rank.value = 11 := by rw [haace]; rfl
    omega
  rw [hfs]
  have : R.map (fun c => c.rank) =
      (R.dropLast ++ [e]).map (fun c => c.rank) := by rw [hsplit]
  rw [this, List.map_append]
  simp [heace]

/-!  ### Parsing rejects unrecognized tokens -/

theorem parseRankU_not_recognized {u : String}
    (h : u ∉ recognizedRankTokens) : (parseRankU u).isOk = false := by
  have hb : BROADWAY_TBL.find? (fun p => p.1 == u) = none := by
    rw [List.find?_eq_none]
    intro p hp
    simp only [beq_iff_eq]
    intro hc
    exact h (by
      rw [recognizedRankTokens]
      exact List.mem_append.mpr (Or.inr (List.mem_map.mpr ⟨p, hp, hc⟩)))
  have hr : RANKS_TBL.find? (fun p => p.1 == u) = none := by
    rw [List.find?_eq_none]
    intro p hp
    simp only [beq_iff_eq]
    intro hc
    exact h (by
      rw [recognizedRankTokens]
      exact List.mem_append.mpr (Or.inl (List.mem_map.mpr ⟨p, hp, hc⟩)))
  simp only [parseRankU, hb, hr]
  rfl

theorem parseSuitL_not_recognized {u : String}
    (h : u ∉ recognizedSuitTokens) : (parseSuitL u).isOk = false := by
  have hn : SUIT_NAMES_TBL.find? (fun p => p.1 == u) = none := by
    rw [List.find?_eq_none]
    intro p hp
    simp only [beq_iff_eq]
    intro hc
    exact h (by
      rw [recognizedSuitTokens]
      exact List.mem_append.mpr (Or.inl (List.mem_map.mpr ⟨p, hp, hc⟩)))
  have hs : SUIT_SYMBOLS_TBL.find? (fun p => p.1 == u) = none := by
    rw [List.find?_eq_none]
    intro p hp
    simp only [beq_iff_eq]
    intro hc
    exact h (by
      rw [recognizedSuitTokens]
      exact List.mem_append.mpr (Or.inr (List.mem_map.mpr ⟨p, hp, hc⟩)))
  simp only [parseSuitL, hn, hs]
  rfl

/-!  ## The claims -/

/-- Claim C10: the Rank comparison operators compare by `value`, not
`order`.  Among jack, queen and king (all value 10) neither variant's
`__lt__` holds in either direction; in the dataclass Rank of
`classes/rank.py` two distinct face cards even compare equal (while the
`classes/cards.py` Rank, comparing names, keeps them distinct); and the
ace, with value 11, compares strictly greater than the king and every
other rank. -/
theorem c10_rank_comparison_by_value :
    (∀ r s : Rank, r ∈ ([.jack, .queen, .king] : List Rank) →
       s ∈ ([.jack, .queen, .king] : List Rank) →
       CardDC.rankLt r s = false ∧ CardsPy.rankLt r s = false ∧
       CardDC.rankEq r s = true ∧ CardsPy.rankEq r s = (r == s)) ∧
    (∀ r : Rank, r = .ace ∨
       (CardDC.rankLt r .ace = true ∧ CardsPy.rankLt r .ace = true ∧
        CardDC.rankLt .ace r = false ∧ CardsPy.rankLt .ace r = false ∧
        CardDC.rankEq r .ace = false ∧ CardsPy.rankEq r .ace = false)) := by
  decide

/-- Witness for C10 at jack and queen. -/
theorem c10_rank_comparison_by_value_witness :
    (Rank.jack ∈ ([.jack, .queen, .king] : List Rank)) ∧
    (Rank.queen ∈ ([.jack, .queen, .king] : List Rank)) ∧
    (CardDC.rankLt .jack .queen = false ∧ CardsPy.rankLt .jack .queen = false ∧
     CardDC.rankEq .jack .queen = true ∧
     CardsPy.rankEq .jack .queen = (Rank.jack == Rank.queen)) :=
  ⟨by decide, by decide,
    c10_rank_comparison_by_value.1 .jack .queen (by decide) (by decide)⟩

/-- Claim C8: rank and suit construction is spelling-insensitive — any
two tokens with the same upper-cased (ranks) or lower-cased (suits) form
parse alike, abbreviation, full name and symbol of the same rank or suit
all yield the same canonical value — and every token that matches no
recognized spelling is rejected with a validation error. -/
theorem c8_token_parsing :
    (∀ s t : String, pyUpper s = pyUpper t → parseRank s = parseRank t) ∧
    (∀ s t : String, pyLower s = pyLower t → parseSuit s = parseSuit t) ∧
    (parseRank "ace" = .ok .ace ∧ parseRank "A" = .ok .ace ∧
     parseRank "a" = .ok .ace ∧ parseRank "jack" = .ok .jack ∧
     parseRank "J" = .ok .jack ∧ parseRank "Queen" = .ok .queen ∧
     parseRank "q" = .ok .queen ∧ parseRank "KING" = .ok .king ∧
     parseRank "K" = .ok .king ∧ parseRank "10" = .ok .ten ∧
     parseRank "2" = .ok .two) ∧
    (parseSuit "clubs" = .ok .clubs ∧ parseSuit "CLUBS" = .ok .clubs ∧
     parseSuit "♣" = .ok .clubs ∧ parseSuit "spades" = .ok .spades ∧
     parseSuit "♠" = .ok .spades ∧ parseSuit "Hearts" = .ok .hearts ∧
     parseSuit "♥" = .ok .hearts ∧ parseSuit "diamonds" = .ok .diamonds ∧
     parseSuit "♦" = .ok .diamonds) ∧
    (∀ s : String, pyUpper s ∉ recognizedRankTokens →
       (parseRank s).isOk = false) ∧
    (∀ s : String, pyLower s ∉ recognizedSuitTokens →
       (parseSuit s).isOk = false) := by
  refine ⟨?_, ?_, by decide, by decide, ?_, ?_⟩
  · intro s t h
    rw [parseRank, parseRank, h]
  · intro s t h
    rw [parseSuit, parseSuit, h]
  · intro s h
    rw [parseRank]
    exact parseRankU_not_recognized h
  · intro s h
    rw [parseSuit]
    exact parseSuitL_not_recognized h

/-- Witness for C8: "Ace" and "aCe" agree (and parse), and the bogus
tokens "X" and "batons" are rejected. -/
theorem c8_token_parsing_witness :
    (pyUpper "Ace" = pyUpper "aCe" ∧ parseRank "Ace" = parseRank "aCe") ∧
    (pyUpper "X" ∉ recognizedRankTokens ∧ (parseRank "X").isOk = false) ∧
    (pyLower "batons" ∉ recognizedSuitTokens ∧
      (parseSuit "batons").isOk = false) :=
  ⟨⟨by decide, c8_token_parsing.1 "Ace" "aCe" (by decide)⟩,
   ⟨by decide, c8_token_parsing.2.2.2.2.1 "X" (by decide)⟩,
   ⟨by decide, c8_token_parsing.2.2.2.2.2 "batons" (by decide)⟩⟩

/-- Claim C4 (code bug in `classes/card.py`): the repository's own test
(`tests.py`) and the `classes.py` and `classes/cards.py` Card classes
make card equality require BOTH rank and suit, with the suits'
alphabetical order breaking ties of equal-rank cards; but the dataclass
`Card.__eq__` of `classes/card.py` compares ranks only (and its rank
equality compares `value` only), so the ace of clubs and the ace of
hearts — the exact cards `tests.py` asserts unequal — compare equal
there, and its `__lt__` has no suit tie-break at all.  The
`classes/cards.py` Card satisfies the claimed contract in full. -/
theorem c4_card_equality :
    (CardDC.cardEq { rank := .ace, suit := .clubs }
        { rank := .ace, suit := .hearts } = true ∧
     ({ rank := .ace, suit := .clubs } : Card) ≠
        { rank := .ace, suit := .hearts } ∧
     CardDC.cardLt { rank := .ace, suit := .clubs }
        { rank := .ace, suit := .hearts } = false ∧
     CardDC.cardLt { rank := .ace, suit := .hearts }
        { rank := .ace, suit := .clubs } = false) ∧
    (ClassesPy.cardEq { rank := .ace, suit := .clubs }
        { rank := .ace, suit := .hearts } = false ∧
     CardsPy.cardEq { rank := .ace, suit := .clubs }
        { rank := .ace, suit := .hearts } = false ∧
     CardsPy.cardLt { rank := .ace, suit := .clubs }
        { rank := .ace, suit := .hearts } = true) ∧
    (∀ c d : Card, CardsPy.cardEq c d = true ↔ c = d) ∧
    (∀ c d : Card, CardsPy.cardLt c d = true ↔
       (c.rank.value < d.rank.value ∨
         (c.rank = d.rank ∧ c.suit.alphaIdx < d.suit.alphaIdx))) := by
  decide

/-- Claim C9 (code bug in `classes/card.py`): the fresh deck of
`classes/deck.py` holds exactly 52 cards, one per rank/suit pair,
beginning with the ace of clubs and the ace of diamonds; those 52 cards
are pairwise distinct under the rank-and-suit Card equality of
`classes/cards.py` and `classes.py`, but NOT under the rank-only
`Card.__eq__` of `classes/card.py`, which already identifies the first
two cards.  Shuffling — any permutation of the backing list — preserves
the multiset of cards and the size. -/
theorem c9_fresh_deck :
    (DeckPy.fresh.length = 52 ∧
     DeckPy.fresh.take 2 = [{ rank := .ace, suit := .clubs },
       { rank := .ace, suit := .diamonds }] ∧
     DeckPy.fresh.Pairwise (fun a b => CardsPy.cardEq a b = false) ∧
     DeckPy.fresh.Pairwise (fun a b => ClassesPy.cardEq a b = false) ∧
     DeckPy.fresh.Nodup) ∧
    CardDC.cardEq { rank := .ace, suit := .clubs }
      { rank := .ace, suit := .diamonds } = true ∧
    (∀ d : List Card, DeckPy.fresh.Perm d →
       d.length = 52 ∧ (↑d : Multiset Card) = ↑DeckPy.fresh) := by
  refine ⟨by decide, by decide, ?_⟩
  intro d hd
  constructor
  · rw [← hd.length_eq]
    decide
  · exact Multiset.coe_eq_coe.mpr hd.symm

/-- Witness for C9: the reversed fresh deck is a permutation of the
fresh deck with the same size and multiset. -/
theorem c9_fresh_deck_witness :
    DeckPy.fresh.reverse.length = 52 ∧
    (↑DeckPy.fresh.reverse : Multiset Card) = ↑DeckPy.fresh :=
  c9_fresh_deck.2.2 DeckPy.fresh.reverse
    (List.reverse_perm DeckPy.fresh).symm

/-- Claim C2 (code bug in `classes.py`): for the hand K♣ K♦ Q♥ Q♠ 2♣ the
engine's pair search finds the two disjoint pairs and `find_two_pairs`
assembles the two-pair hand, but the best-category chain of
`PokerHands._find_hands` has no two-pair case at all (the source carries
a `TODO Two pair` comment), so the hand's best category is scored 2 —
Pair — rather than Two Pair. -/
theorem c2_two_pair_not_ranked :
    PH.score tpHand = 2 ∧
    PH.pairs tpHand ≠ [] ∧
    Engine.find_matching_ranks tpHand 2 =
      [[{ rank := .king, suit := .clubs }, { rank := .king, suit := .diamonds }],
       [{ rank := .queen, suit := .hearts }, { rank := .queen, suit := .spades }]] ∧
    Engine.find_two_pairs (Engine.find_matching_ranks tpHand 2) =
      [[{ rank := .king, suit := .clubs }, { rank := .king, suit := .diamonds },
        { rank := .queen, suit := .hearts }, { rank := .queen, suit := .spades }]] := by
  decide

/-- Claim C6 (code bug in `classes.py`): `engine.find_full_house`
detects a full house exactly when two distinct ranks occur with sorted
multiplicities `[2, 3]`, and returns the hand sorted by rank — for
2♣ 2♦ 2♥ 5♠ 5♣ it reports the full house.  But
`PokerHands._find_full_houses` filters every pair/triple combination
through the broken `_all_are_distinct` (whose inner loop compares each
card with itself), so it finds no full house in that hand and scores it
3 — Three of a Kind. -/
theorem c6_full_house :
    (∀ cards : List Card,
       Engine.find_full_house cards ≠ [] ↔
         ((Engine.rankCounts cards).length = 2 ∧
          pysorted (fun a b => a ≤ b)
            ((Engine.rankCounts cards).map (fun p => p.2)) = [2, 3])) ∧
    Engine.find_full_house fhHand =
      [{ rank := .two, suit := .clubs }, { rank := .two, suit := .diamonds },
       { rank := .two, suit := .hearts }, { rank := .five, suit := .spades },
       { rank := .five, suit := .clubs }] ∧
    PH.pairs fhHand ≠ [] ∧ PH.three_of_a_kinds fhHand ≠ [] ∧
    PH.full_houses fhHand = [] ∧
    PH.score fhHand = 3 := by
  refine ⟨?_, by decide, by decide, by decide, by decide, by decide⟩
  intro cards
  rw [Engine.find_full_house]
  by_cases hcond : (Engine.rankCounts cards).length = 2 ∧
      pysorted (fun a b => a ≤ b)
        ((Engine.rankCounts cards).map (fun p => p.2)) = [2, 3]
  · rw [if_pos hcond]
    constructor
    · intro _
      exact hcond
    · intro _
      rw [Ne, pysorted_eq_nil_iff]
      intro hnil
      rw [hnil] at hcond
      exact absurd hcond.1 (by decide)
  · rw [if_neg hcond]
    simp only [ne_eq, not_true_eq_false, false_iff]
    exact hcond

/-- Counterexample for C1: on the royal hand 10♠ J♠ Q♠ K♠ A♠ —
a straight, a flush, and the ace-high special case — `engine.py`'s
`find_hands` reports a NON-empty straight flush alongside the royal
flush, where the claim requires the straight-flush category to be empty. -/
theorem c1_counterexample :
    Engine.is_high_straight royalHand = true ∧
    Engine.find_straight royalHand ≠ [] ∧
    Engine.find_flush royalHand ≠ [] ∧
    Engine.straight_flush royalHand ≠ [] ∧
    Engine.royal_flush royalHand ≠ [] := by
  decide

/-- Claim C1 as amended: in `classes.py`'s PokerHands a straight flush
is reported iff a straight and a flush were detected and the hand is not
the ace-high special case — so the royal hand gets an empty
straight-flush category and a royal flush (score 9) — while in
`engine.py`'s `find_hands` the straight-flush entry is non-empty iff a
straight and a flush were detected, with no ace-high exclusion, so the
royal hand is reported as both straight flush and royal flush. -/
theorem c1_straight_flush :
    (∀ cards : List Card,
       PH.straight_flushes cards ≠ [] ↔
         (PH.straights cards ≠ [] ∧ PH.flushes cards ≠ [] ∧
          ¬ PH.is_a_high_straight cards = true)) ∧
    (PH.straight_flushes royalHand = [] ∧ PH.royal_flushes royalHand ≠ [] ∧
     PH.score royalHand = 9) ∧
    (∀ cards : List Card, cards ≠ [] →
       (Engine.straight_flush cards ≠ [] ↔
         (Engine.find_straight cards ≠ [] ∧ Engine.find_flush cards ≠ []))) := by
  refine ⟨?_, by decide, ?_⟩
  · intro cards
    rw [PH.straight_flushes]
    by_cases hcond : PH.straights cards ≠ [] ∧ PH.flushes cards ≠ [] ∧
        ¬ PH.is_a_high_straight cards = true
    · rw [if_pos hcond]
      simp only [ne_eq, List.cons_ne_nil, not_false_eq_true, true_iff]
      exact hcond
    · rw [if_neg hcond]
      simp only [ne_eq, not_true_eq_false, false_iff]
      exact hcond
  · intro cards hne
    rw [Engine.straight_flush]
    by_cases hcond : Engine.find_straight cards ≠ [] ∧
        Engine.find_flush cards ≠ []
    · rw [if_pos hcond]
      constructor
      · intro _
        exact hcond
      · intro _
        rw [Ne, pysorted_eq_nil_iff]
        exact hne
    · rw [if_neg hcond]
      simp only [ne_eq, not_true_eq_false, false_iff]
      exact hcond

/-- Witness for C1, instantiating the engine half at the royal hand. -/
theorem c1_straight_flush_witness :
    royalHand ≠ [] ∧
    (Engine.straight_flush royalHand ≠ [] ↔
      (Engine.find_straight royalHand ≠ [] ∧
       Engine.find_flush royalHand ≠ [])) :=
  ⟨by decide, c1_straight_flush.2.2 royalHand (by decide)⟩

/-- Counterexample for C3: on the hand J♣ Q♦ K♥ 2♠ 3♣ the engine's
`max(cards)` under the Card comparisons of `classes/card.py` reports the
jack of clubs as the high card, although the king of hearts is in the
hand and its `(value, order)` key is strictly greater — the claim's
required tie-break by `order` does not happen. -/
theorem c3_counterexample :
    Engine.high_card CardDC.cardGt hcHand =
      some { rank := .jack, suit := .clubs } ∧
    ({ rank := .king, suit := .hearts } : Card) ∈ hcHand ∧
    PH.keyLtB (PH.hcKey { rank := .jack, suit := .clubs })
      (PH.hcKey { rank := .king, suit := .hearts }) = true := by
  decide

/-- Claim C3 as amended: `PokerHands._find_high_card` reports a card of
the hand whose `(value, order)` key is an upper bound of every card's
key — on J♣ Q♦ K♥ 2♠ 3♣ it reports the king — while the engine's
`max(cards)`, which compares cards by rank `value` alone, keeps the
first card of maximal value and reports the jack on the same hand. -/
theorem c3_high_card :
    (∀ c0 : Card, ∀ cs : List Card, ∀ hc : Card,
       PH.high_card (c0 :: cs) = some hc →
         (hc ∈ c0 :: cs ∧
          ∀ c ∈ c0 :: cs, keyLe (PH.hcKey c) (PH.hcKey hc))) ∧
    PH.high_card hcHand = some { rank := .king, suit := .hearts } ∧
    Engine.high_card CardDC.cardGt hcHand =
      some { rank := .jack, suit := .clubs } := by
  refine ⟨?_, by decide, by decide⟩
  intro c0 cs hc h
  simp only [PH.high_card, Option.some.injEq] at h
  rcases pymaxBy_key_spec cs c0 with ⟨hmem, hmax⟩
  rw [← h]
  constructor
  · rcases hmem with h1 | h1
    · rw [h1]
      exact List.mem_cons_self c0 cs
    · exact List.mem_cons_of_mem c0 h1
  · exact hmax

/-- Witness for C3 at the hand J♣ Q♦ K♥ 2♠ 3♣: the reported king is in
the hand and its key dominates the jack's. -/
theorem c3_high_card_witness :
    ({ rank := .king, suit := .hearts } : Card) ∈
      ({ rank := .jack, suit := .clubs } ::
        [{ rank := .queen, suit := .diamonds }, { rank := .king, suit := .hearts },
         { rank := .two, suit := .spades }, { rank := .three, suit := .clubs }]) ∧
    keyLe (PH.hcKey { rank := .jack, suit := .clubs })
      (PH.hcKey { rank := .king, suit := .hearts }) := by
  have h := (c3_high_card.1 { rank := .jack, suit := .clubs }
    [{ rank := .queen, suit := .diamonds }, { rank := .king, suit := .hearts },
     { rank := .two, suit := .spades }, { rank := .three, suit := .clubs }]
    { rank := .king, suit := .hearts } (by decide))
  exact ⟨h.1, h.2 { rank := .jack, suit := .clubs } (by decide)⟩

/-- Unfolding of the engine's ace-high test. -/
theorem engine_high_iff (cards : List Card) :
    Engine.is_high_straight cards = true ↔
      pysorted (fun a b => a ≤ b) (cards.map (fun c => c.rank.order)) =
        [1, 10, 11, 12, 13] := by
  simp [Engine.is_high_straight]

/-- Counterexample for C5: on the ace-high straight 10♣ J♦ Q♥ K♠ A♣ the
`classes.py` evaluator recognizes the special case but returns the hand
in cardinality order — ace FIRST and king last — where the claim
requires the ace to be listed last. -/
theorem c5_counterexample :
    PH.is_a_high_straight aceHighHand = true ∧
    (PH.straights aceHighHand).headI.map (fun c => c.rank) =
      [.ace, .ten, .jack, .queen, .king] ∧
    ((PH.straights aceHighHand).headI.map (fun c => c.rank)).getLast? =
      some .king := by
  decide

/-- Claim C5 as amended: both evaluators report a straight exactly when
the sorted rank orders are five consecutive integers or exactly
`[1, 10, 11, 12, 13]` (the ace-high case), and any other ordering yields
no straight; in the ace-high case `engine.find_straight` returns the
hand with the ace last (sorted by `(value, order)`), while
`PokerHands._find_straight` returns it in cardinality order with the
ace first. -/
theorem c5_straight :
    (∀ cards : List Card, cards ≠ [] →
       (Engine.find_straight cards ≠ [] ↔
         (pysorted (fun a b => a ≤ b) (cards.map (fun c => c.rank.order)) =
            [1, 10, 11, 12, 13] ∨
          PH.chainSucc (pysorted (fun a b => a ≤ b)
            (cards.map (fun c => c.rank.order))) = true))) ∧
    (∀ cards : List Card,
       (PH.straights cards ≠ [] ↔
         (pysorted (fun a b => a ≤ b) (cards.map (fun c => c.rank.order)) =
            [1, 10, 11, 12, 13] ∨
          PH.chainSucc (pysorted (fun a b => a ≤ b)
            (cards.map (fun c => c.rank.order))) = true))) ∧
    (∀ cards : List Card, Engine.is_high_straight cards = true →
       ((Engine.find_straight cards).map (fun c => c.rank)).getLast? =
         some .ace) ∧
    (PH.straights aceHighHand).headI.map (fun c => c.rank) =
      [.ace, .ten, .jack, .queen, .king] := by
  refine ⟨?_, ?_, engine_high_straight_ace_last, by decide⟩
  · intro cards hne
    rw [Engine.find_straight]
    by_cases hhigh : Engine.is_high_straight cards = true
    · rw [if_pos hhigh]
      constructor
      · intro _
        exact Or.inl ((engine_high_iff cards).mp hhigh)
      · intro _
        rw [Ne, pysorted_eq_nil_iff]
        exact hne
    · rw [if_neg hhigh]
      by_cases hchain : PH.chainSucc (pysorted (fun a b => a ≤ b)
          (cards.map (fun c => c.rank.order))) = true
      · rw [if_pos hchain]
        constructor
        · intro _
          exact Or.inr hchain
        · intro _
          rw [Ne, pysorted_eq_nil_iff]
          exact hne
      · rw [if_neg hchain]
        constructor
        · intro hcc
          exact absurd rfl hcc
        · intro hor
          rcases hor with h1 | h1
          · exact absurd ((engine_high_iff cards).mpr h1) hhigh
          · exact absurd h1 hchain
  · intro cards
    rw [PH.straights]
    by_cases hcond : (PH.is_a_high_straight cards ||
        PH.all_are_in_cardinal_order (PH.sorted_cards cards)) = true
    · rw [if_pos hcond]
      simp only [ne_eq, List.cons_ne_nil, not_false_eq_true, true_iff]
      simp only [Bool.or_eq_true] at hcond
      rcases hcond with h1 | h1
      · exact Or.inl ((engine_high_iff cards).mp
          ((high_straight_agree cards).mp h1))
      · refine Or.inr ?_
        rw [← cardinal_order_agree]
        exact h1
    · rw [if_neg hcond]
      simp only [ne_eq, not_true_eq_false, false_iff]
      intro hor
      apply hcond
      simp only [Bool.or_eq_true]
      rcases hor with h1 | h1
      · exact Or.inl ((high_straight_agree cards).mpr
          ((engine_high_iff cards).mpr h1))
      · refine Or.inr ?_
        rw [cardinal_order_agree]
        exact h1

/-- Witness for C5 at the ace-high straight 10♣ J♦ Q♥ K♠ A♣. -/
theorem c5_straight_witness :
    aceHighHand ≠ [] ∧
    (Engine.find_straight aceHighHand ≠ [] ↔
      (pysorted (fun a b => a ≤ b)
          (aceHighHand.map (fun c => c.rank.order)) = [1, 10, 11, 12, 13] ∨
       PH.chainSucc (pysorted (fun a b => a ≤ b)
         (aceHighHand.map (fun c => c.rank.order))) = true)) ∧
    ((Engine.find_straight aceHighHand).map (fun c => c.rank)).getLast? =
      some .ace :=
  ⟨by decide, c5_straight.1 aceHighHand (by decide),
    c5_straight.2.2.1 aceHighHand (by decide)⟩

/-- Counterexample for C7: asking the `classes.py` Deck for two cards
when one remains does not leave the deck unchanged — `deal` pops until
`IndexError` escapes and the deck is left empty. -/
theorem c7_counterexample :
    (ClassesPy.deal 2 [{ rank := .king, suit := .spades }]).1.isOk = false ∧
    (ClassesPy.deal 2 [{ rank := .king, suit := .spades }]).2 ≠
      [{ rank := .king, suit := .spades }] := by
  decide

/-- Claim C7 as amended: `Deck.draw` of `classes/deck.py` (and of
`classes/cards.py`) raises the insufficient-cards `ValueError` and
leaves the deck unchanged when more cards are requested than remain,
and otherwise hands out exactly `n` cards, shrinks the deck by `n`, and
— on a duplicate-free deck — hands out no card that stays in the deck;
`Deck.deal` of `classes.py`, however, performs no such check: an
oversized request fails with `IndexError` only after every card has been
popped, leaving the deck empty rather than unchanged. -/
theorem c7_draw :
    (∀ n : Nat, ∀ cards : List Card, cards.length < n →
       DeckPy.draw n cards =
         (.error "Not enough cards left in deck to draw", cards)) ∧
    (∀ n : Nat, ∀ cards : List Card, n ≤ cards.length →
       (DeckPy.draw n cards).1 = .ok (cards.take n) ∧
       (cards.take n).length = n ∧
       (DeckPy.draw n cards).2 = cards.drop n ∧
       (DeckPy.draw n cards).2.length = cards.length - n ∧
       (cards.Nodup → ∀ c ∈ cards.take n, c ∉ (DeckPy.draw n cards).2)) ∧
    (∀ n : Nat, ∀ cards : List Card, cards.length < n →
       ClassesPy.deal n cards = (.error "pop from empty list", [])) := by
  refine ⟨?_, ?_, ?_⟩
  · intro n cards h
    rw [DeckPy.draw, if_pos (by omega)]
  · intro n cards h
    have hno : ¬ n > cards.length := by omega
    refine ⟨?_, ?_, ?_, ?_, ?_⟩
    · rw [DeckPy.draw, if_neg hno]
    · rw [List.length_take]
      omega
    · rw [DeckPy.draw, if_neg hno]
    · rw [DeckPy.draw, if_neg hno]
      simp only [List.length_drop]
    · intro hnd c hc hc2
      rw [DeckPy.draw, if_neg hno] at hc2
      exact (List.disjoint_take_drop hnd (le_refl n)) hc hc2
  · intro n cards h
    rw [ClassesPy.deal, if_neg (by omega)]

/-- Witness for C7: drawing 5 from the fresh 52-card deck succeeds, the
failure branch fires on an oversized request, and the first drawn card —
the ace of clubs — is no longer in the remaining deck. -/
theorem c7_draw_witness :
    (DeckPy.draw 53 DeckPy.fresh =
      (.error "Not enough cards left in deck to draw", DeckPy.fresh)) ∧
    (DeckPy.draw 5 DeckPy.fresh).1 = .ok (DeckPy.fresh.take 5) ∧
    (DeckPy.draw 5 DeckPy.fresh).2.length = 47 ∧
    ({ rank := .ace, suit := .clubs } : Card) ∉ (DeckPy.draw 5 DeckPy.fresh).2 ∧
    ClassesPy.deal 53 DeckPy.fresh = (.error "pop from empty list", []) := by
  have h1 := c7_draw.1 53 DeckPy.fresh (by decide)
  have h2 := c7_draw.2.1 5 DeckPy.fresh (by decide)
  have h3 := c7_draw.2.2 53 DeckPy.fresh (by decide)
  refine ⟨h1, h2.1, ?_, ?_, h3⟩
  · rw [h2.2.2.2.1]
    decide
  · exact h2.2.2.2.2 (by decide) _ (by decide)
